import Mathlib

/-!
# ECPay CheckMacValue subsystem — shallow embedding

This file embeds the request-signing and response-integrity core of the
`payment_gateway_sdk` repository (module `gateways/ecpay/security.py` and its
helper `gateways/ecpay/utils.py`) into Lean and proves the specification
claims about it.

Modelling conventions:
* Python `str` is Lean `String`; `str.lower()` / `str.upper()` act on the
  ASCII range exactly as `Char.toLower` / `Char.toUpper` do (all strings the
  algorithm case-folds are ASCII, see `ecpay_url_encode_ascii`).
* A Python `dict` whose keys and values are strings is an association list
  `List (String × String)`; a genuine `dict` has no duplicate keys, which
  the theorems assume where it matters.  `dict.copy()` is the identity on
  the value, `del d[k]` removes the entry with key `k`, membership is
  `containsKey`, indexing is `dictGet`.
* Machine words are `Nat` reduced modulo `2^32` (`w32`); bytes are `Nat`
  below `256`.
* `hashlib.sha256` is implemented in full (FIPS 180-4) over byte lists.
* `hmac.compare_digest` on two `str` arguments is equality, except that
  CPython raises `TypeError` when either string is not pure ASCII; fallible
  results are `Except String`.
-/

/-- 32-bit truncation: `n % 2^32`. -/
def w32 (n : Nat) : Nat := n % 4294967296

/-- Right-rotation of a 32-bit word by `n` bits. -/
def rotr (n x : Nat) : Nat := w32 ((x >>> n) ||| (x <<< (32 - n)))

/-- The eight initial SHA-256 state words (FIPS 180-4 §5.3.3), in decimal. -/
def sha256_h0 : List Nat :=
  [1779033703, 3144134277, 1013904242, 2773480762,
   1359893119, 2600822924, 528734635, 1541459225]

/-- The 64 SHA-256 round constants (FIPS 180-4 §4.2.2), in decimal. -/
def sha256_k : List Nat :=
  [1116352408, 1899447441, 3049323471, 3921009573, 961987163,
   1508970993, 2453635748, 2870763221, 3624381080, 310598401,
   607225278, 1426881987, 1925078388, 2162078206, 2614888103,
   3248222580, 3835390401, 4022224774, 264347078, 604807628,
   770255983, 1249150122, 1555081692, 1996064986, 2554220882,
   2821834349, 2952996808, 3210313671, 3336571891, 3584528711,
   113926993, 338241895, 666307205, 773529912, 1294757372,
   1396182291, 1695183700, 1986661051, 2177026350, 2456956037,
   2730485921, 2820302411, 3259730800, 3345764771, 3516065817,
   3600352804, 4094571909, 275423344, 430227734, 506948616,
   659060556, 883997877, 958139571, 1322822218, 1537002063,
   1747873779, 1955562222, 2024104815, 2227730452, 2361852424,
   2428436474, 2756734187, 3204031479, 3329325298]

/-- Big-endian 8-byte rendering of a message bit length. -/
def lenBytes64 (n : Nat) : List Nat :=
  [(n >>> 56) % 256, (n >>> 48) % 256, (n >>> 40) % 256, (n >>> 32) % 256,
   (n >>> 24) % 256, (n >>> 16) % 256, (n >>> 8) % 256, n % 256]

/-- SHA-256 padding: append `0x80`, zero bytes to 56 mod 64, then the
64-bit big-endian bit length. -/
def sha256_pad (msg : List Nat) : List Nat :=
  msg ++ 0x80 :: (List.replicate ((119 - msg.length % 64) % 64) 0 ++ lenBytes64 (msg.length * 8))

/-- Group bytes into big-endian 32-bit words. -/
def toWords : List Nat → List Nat
  | a :: b :: c :: d :: t => (((a * 256 + b) * 256 + c) * 256 + d) :: toWords t
  | _ => []

/-- Word `i` of a schedule prefix (0 when out of range). -/
def wget (w : List Nat) (i : Nat) : Nat := w.getD i 0

/-- Extend a message-schedule prefix by one word (FIPS 180-4 §6.2.2 step 1). -/
def scheduleStep (w : List Nat) : List Nat :=
  let i := w.length
  let x15 := wget w (i - 15)
  let x2 := wget w (i - 2)
  let s0 := (rotr 7 x15) ^^^ (rotr 18 x15) ^^^ (x15 >>> 3)
  let s1 := (rotr 17 x2) ^^^ (rotr 19 x2) ^^^ (x2 >>> 10)
  w ++ [w32 (wget w (i - 16) + s0 + wget w (i - 7) + s1)]

/-- The 64-word message schedule of one 64-byte block. -/
def sha256_schedule (block : List Nat) : List Nat :=
  Nat.repeat scheduleStep 48 (toWords block)

/-- One round of the SHA-256 compression function on the eight-word state. -/
def compressStep (st : List Nat) (kw : Nat) : List Nat :=
  match st with
  | [a, b, c, d, e, f, g, h] =>
    let bigS1 := (rotr 6 e) ^^^ (rotr 11 e) ^^^ (rotr 25 e)
    let ch := (e &&& f) ^^^ ((e ^^^ 4294967295) &&& g)
    let temp1 := w32 (h + bigS1 + ch + kw)
    let bigS0 := (rotr 2 a) ^^^ (rotr 13 a) ^^^ (rotr 22 a)
    let maj := (a &&& b) ^^^ (a &&& c) ^^^ (b &&& c)
    let temp2 := w32 (bigS0 + maj)
    [w32 (temp1 + temp2), a, b, c, w32 (d + temp1), e, f, g]
  | other => other

/-- Process one 64-byte block into the running hash state. -/
def sha256_compress (h : List Nat) (block : List Nat) : List Nat :=
  let w := sha256_schedule block
  let kw := (List.zip sha256_k w).map (fun p => w32 (p.1 + p.2))
  let st := kw.foldl compressStep h
  (List.zip h st).map (fun p => w32 (p.1 + p.2))

/-- Split a byte list into 64-byte blocks; the fuel argument (any bound on
the number of nonempty suffixes, e.g. the length) keeps recursion structural. -/
def toBlocks : Nat → List Nat → List (List Nat)
  | 0, _ => []
  | _ + 1, [] => []
  | fuel + 1, a :: t => (a :: t).take 64 :: toBlocks fuel ((a :: t).drop 64)

/-- The four big-endian bytes of a 32-bit word. -/
def wordBytes (x : Nat) : List Nat :=
  [(x >>> 24) % 256, (x >>> 16) % 256, (x >>> 8) % 256, x % 256]

/-- SHA-256 digest of a byte list, as the list of its 32 bytes. -/
def sha256 (msg : List Nat) : List Nat :=
  let padded := sha256_pad msg
  let final := (toBlocks padded.length padded).foldl sha256_compress sha256_h0
  (final.map wordBytes).flatten

/-- The lowercase hexadecimal digit characters. -/
def hexDigits : List Char := "0123456789abcdef".data

/-- The uppercase hexadecimal digit characters. -/
def hexDigitsUpper : List Char := "0123456789ABCDEF".data

/-- `hashlib`'s `hexdigest()`: two lowercase hex characters per byte. -/
def hexdigest (bytes : List Nat) : String :=
  String.mk (bytes.flatMap (fun b => [hexDigits.getD (b / 16 % 16) '0', hexDigits.getD (b % 16) '0']))

/-- UTF-8 encoding of a single code point (RFC 3629). -/
def charUtf8 (n : Nat) : List Nat :=
  if n < 0x80 then [n]
  else if n < 0x800 then [0xC0 + (n >>> 6), 0x80 + (n &&& 63)]
  else if n < 0x10000 then
    [0xE0 + (n >>> 12), 0x80 + ((n >>> 6) &&& 63), 0x80 + (n &&& 63)]
  else
    [0xF0 + (n >>> 18), 0x80 + ((n >>> 12) &&& 63), 0x80 + ((n >>> 6) &&& 63), 0x80 + (n &&& 63)]

/-- The UTF-8 byte sequence of a string (`str.encode("utf-8")`). -/
def utf8Bytes (s : String) : List Nat :=
  s.data.flatMap (fun c => charUtf8 c.toNat)

/-- Python `str.lower()` (all case-folded strings in this subsystem are ASCII). -/
def pyLower (s : String) : String := String.mk (s.data.map Char.toLower)

/-- Python `str.upper()` (applied only to the ASCII hex digest here). -/
def pyUpper (s : String) : String := String.mk (s.data.map Char.toUpper)

/-- Python `sep.join(parts)`. -/
def pyJoin (sep : String) : List String → String
  | [] => ""
  | x :: xs => xs.foldl (fun acc y => acc ++ sep ++ y) x

/-- Bytes that `urllib.parse.quote_plus(·, safe="-_.~!*()")` leaves unescaped:
ASCII alphanumerics, the always-safe `_ . - ~`, and the extra safe set
`! * ( )` passed by `ecpay_url_encode`. -/
def isSafeByte (b : Nat) : Bool :=
  (48 ≤ b && b ≤ 57) || (65 ≤ b && b ≤ 90) || (97 ≤ b && b ≤ 122) ||
  (b == 45) || (b == 95) || (b == 46) || (b == 126) ||
  (b == 33) || (b == 42) || (b == 40) || (b == 41)

/-- Encoding of one UTF-8 byte by `quote_plus`: space becomes `+`, safe bytes
pass through, everything else becomes `%XX` with uppercase hex digits. -/
def quoteByte (b : Nat) : List Char :=
  if b == 32 then ['+']
  else if isSafeByte b then [Char.ofNat b]
  else ['%', hexDigitsUpper.getD (b / 16 % 16) '0', hexDigitsUpper.getD (b % 16) '0']

/-- `ecpay_url_encode` (gateways/ecpay/utils.py): `quote_plus(text, safe="-_.~!*()")`,
operating on the UTF-8 bytes of `text`. -/
def ecpay_url_encode (text : String) : String :=
  String.mk ((utf8Bytes text).flatMap quoteByte)

/-- Association-list model of `"CheckMacValue" in params`. -/
def containsKey (d : List (String × String)) (k : String) : Bool :=
  d.any (fun kv => kv.1 == k)

/-- Association-list model of `params[k]` (Python dicts have unique keys, so
the first match is the only one). -/
def dictGet (d : List (String × String)) (k : String) : String :=
  ((d.find? (fun kv => kv.1 == k)).map (fun kv => kv.2)).getD ""

/-- Association-list model of `del params[k]`. -/
def delKey (d : List (String × String)) (k : String) : List (String × String) :=
  d.filter (fun kv => kv.1 != k)

/-- Code-point lexicographic `≤` on character lists — Python's `str` order. -/
def charsLe : List Char → List Char → Bool
  | [], _ => true
  | _ :: _, [] => false
  | x :: xs, y :: ys =>
    if x.toNat < y.toNat then true
    else if y.toNat < x.toNat then false
    else charsLe xs ys

/-- The sort key comparator of `sorted(params_copy.items(), key=lambda x: x[0].lower())`:
entries compared by code-point order of the lowercased key. -/
def keyLe (a b : String × String) : Bool :=
  charsLe (pyLower a.1).data (pyLower b.1).data

/-- Insert into a sorted list, before the first element that the inserted one
`le`-precedes (so equal keys keep their original relative order). -/
def stableInsert (le : α → α → Bool) (a : α) : List α → List α
  | [] => [a]
  | b :: t => if le a b then a :: b :: t else b :: stableInsert le a t

/-- Stable insertion sort.  Python's `sorted` is a stable sort, and all stable
sorts with respect to the same total preorder agree, so this models
`sorted(·, key=lambda x: x[0].lower())` exactly. -/
def stableSort (le : α → α → Bool) : List α → List α
  | [] => []
  | a :: t => stableInsert le a (stableSort le t)

/-- `gateways/ecpay/security.py`, class `EcpaySecurityHelper`: holds the two
configured secrets. -/
structure EcpaySecurityHelper where
  hash_key : String
  hash_iv : String
deriving DecidableEq

/-- `EcpaySecurityHelper.__init__`: `ValueError` unless both secrets are
truthy (a Python `str` is falsy exactly when empty). -/
def EcpaySecurityHelper.make (hash_key hash_iv : String) : Except String EcpaySecurityHelper :=
  if hash_key = "" ∨ hash_iv = "" then
    Except.error "ECPay HashKey and HashIV must be provided."
  else
    Except.ok ⟨hash_key, hash_iv⟩

/-- Steps 1–3 of `calculate_check_mac_value`, starting from the working copy
with the reserved key already removed: sort case-insensitively by key,
serialize `Key=Value&...`, and wrap with the secrets. -/
def fullStringOf (self : EcpaySecurityHelper) (params_copy : List (String × String)) : String :=
  let sorted_params := stableSort keyLe params_copy
  let param_string := pyJoin "&" (sorted_params.map (fun kv => kv.1 ++ "=" ++ kv.2))
  "HashKey=" ++ self.hash_key ++ "&" ++ param_string ++ "&HashIV=" ++ self.hash_iv

/-- `EcpaySecurityHelper.calculate_check_mac_value`: remove the reserved key
from a copy, canonicalize, wrap with secrets, percent-encode, lowercase,
SHA-256 over UTF-8, render as uppercase hex. -/
def EcpaySecurityHelper.calculate_check_mac_value (self : EcpaySecurityHelper)
    (params : List (String × String)) : String :=
  let params_copy := delKey params "CheckMacValue"
  let full_string := fullStringOf self params_copy
  let encoded_string := pyLower (ecpay_url_encode full_string)
  let hashed := sha256 (utf8Bytes encoded_string)
  pyUpper (hexdigest hashed)

/-- `hmac.compare_digest` on two `str` arguments: equality, but CPython
raises `TypeError` when either argument contains a non-ASCII character. -/
def compare_digest (a b : String) : Except String Bool :=
  if a.data.all (fun c => c.toNat ≤ 127) && b.data.all (fun c => c.toNat ≤ 127) then
    Except.ok (a == b)
  else
    Except.error "TypeError: comparing strings with non-ASCII characters is not supported"

/-- `EcpaySecurityHelper.verify_check_mac_value`: `False` when the reserved
key is absent, otherwise `compare_digest` of the received and recomputed
values (recomputation excludes the reserved key). -/
def EcpaySecurityHelper.verify_check_mac_value (self : EcpaySecurityHelper)
    (received_params : List (String × String)) : Except String Bool :=
  if containsKey received_params "CheckMacValue" then
    let received_mac := dictGet received_params "CheckMacValue"
    let calculated_mac := self.calculate_check_mac_value received_params
    compare_digest received_mac calculated_mac
  else
    Except.ok false

/-! ## Reference definitions written from the specification text (§4.1–§4.2),
for the refinement claim: remove the reserved key, sort case-insensitively,
join `Key=Value` with `&`, wrap with the secrets, encode, lowercase, hash,
uppercase-hex. -/

/-- Spec §4.2 step 1: remove the reserved signature key if present. -/
def specRemoveReserved (P : List (String × String)) : List (String × String) :=
  P.filter (fun kv => kv.1 != "CheckMacValue")

/-- Spec §4.1: the canonical `Key1=Value1&Key2=Value2&...` string, entries
ordered by case-insensitively compared key. -/
def specCanonical (P : List (String × String)) : String :=
  pyJoin "&" ((stableSort keyLe P).map (fun kv => kv.1 ++ "=" ++ kv.2))

/-- Spec §4.2 steps 3–6: wrap with the secrets, percent-encode, lowercase the
whole encoded string, SHA-256 over its UTF-8 bytes, render as uppercase hex. -/
def spec_sign (secretKey secretIV : String) (P : List (String × String)) : String :=
  pyUpper (hexdigest (sha256 (utf8Bytes (pyLower (ecpay_url_encode
    ("HashKey=" ++ secretKey ++ "&" ++ specCanonical (specRemoveReserved P) ++
      "&HashIV=" ++ secretIV))))))

/-! ## Object-level trace of the two methods, for the frame claim.

Python dicts are mutable heap objects; to state that the caller's dict is not
mutated we execute the method bodies against an explicit heap of dict objects
addressed by id.  `dict.copy()` allocates a fresh object (its id is a
parameter, constrained to differ from the caller's), `del` writes to the
object it is applied to, and every other step of the body is a pure read.
`self` is passed by value because the body contains no attribute assignment:
`hash_key` and `hash_iv` are only read. -/

def DictHeap := Nat → List (String × String)

/-- Overwrite the dict object at id `i`. -/
def heapWrite (h : DictHeap) (i : Nat) (d : List (String × String)) : DictHeap :=
  fun j => if j = i then d else h j

/-- The body of `calculate_check_mac_value`, traced over the heap: `params`
is the id of the caller's dict, `cp` the id of the fresh `params.copy()`.
Returns the final heap and the returned string. -/
def calculate_trace (self : EcpaySecurityHelper) (h : DictHeap) (params cp : Nat) :
    DictHeap × String :=
  let h1 := heapWrite h cp (h params)
  let h2 :=
    if containsKey (h1 cp) "CheckMacValue" then
      heapWrite h1 cp (delKey (h1 cp) "CheckMacValue")
    else h1
  (h2, pyUpper (hexdigest (sha256 (utf8Bytes (pyLower (ecpay_url_encode
    (fullStringOf self (h2 cp))))))))

/-- The body of `verify_check_mac_value`, traced over the heap: `received` is
the id of the caller's dict, `cp1` the id of `received_params.copy()`, and
`cp2` the id of the copy that `calculate_check_mac_value` makes internally. -/
def verify_trace (self : EcpaySecurityHelper) (h : DictHeap) (received cp1 cp2 : Nat) :
    DictHeap × Except String Bool :=
  if containsKey (h received) "CheckMacValue" then
    let received_mac := dictGet (h received) "CheckMacValue"
    let h1 := heapWrite h cp1 (h received)
    let traced := calculate_trace self h1 cp1 cp2
    (traced.1, compare_digest received_mac traced.2)
  else (h, Except.ok false)

/-- Strict variant of the sort order: `keyLe` together with distinct
lowercased keys.  Antisymmetric (see the instance below `keyLe_antisymm`),
hence sorted permutations agree. -/
def keyStrict (a b : String × String) : Prop :=
  keyLe a b = true ∧ pyLower a.1 ≠ pyLower b.1

/-! ## Order-theoretic facts about the sort comparator -/

theorem charsLe_total (a b : List Char) : charsLe a b = true ∨ charsLe b a = true := by
  induction a generalizing b with
  | nil => left; rfl
  | cons x xs ih =>
    cases b with
    | nil => right; rfl
    | cons y ys =>
      by_cases hxy : x.toNat < y.toNat
      · left; simp [charsLe, hxy]
      · by_cases hyx : y.toNat < x.toNat
        · right; simp [charsLe, hyx]
        · rcases ih ys with h | h
          · left; simp [charsLe, hxy, hyx, h]
          · right; simp [charsLe, hxy, hyx, h]

theorem charsLe_trans {a b c : List Char} (hab : charsLe a b = true)
    (hbc : charsLe b c = true) : charsLe a c = true := by
  induction a generalizing b c with
  | nil => rfl
  | cons x xs ih =>
    cases b with
    | nil => simp [charsLe] at hab
    | cons y ys =>
      cases c with
      | nil => simp [charsLe] at hbc
      | cons z zs =>
        simp only [charsLe] at hab hbc ⊢
        split at hab
        · split at hbc
          · simp; omega
          · split at hbc
            · exact absurd hbc (by simp)
            · simp; omega
        · split at hab
          · exact absurd hab (by simp)
          · split at hbc
            · simp; omega
            · split at hbc
              · exact absurd hbc (by simp)
              · have : ¬ x.toNat < z.toNat ∧ ¬ z.toNat < x.toNat := by omega
                simp [this.1, this.2]
                exact ih hab hbc

theorem charsLe_antisymm {a b : List Char} (hab : charsLe a b = true)
    (hba : charsLe b a = true) : a = b := by
  induction a generalizing b with
  | nil =>
    cases b with
    | nil => rfl
    | cons y ys => simp [charsLe] at hba
  | cons x xs ih =>
    cases b with
    | nil => simp [charsLe] at hab
    | cons y ys =>
      rcases Nat.lt_trichotomy x.toNat y.toNat with h | h | h
      · simp [charsLe, Nat.lt_asymm h, h] at hba
      · have hxy : x = y := by
          have h1 := congrArg Char.ofNat h
          rwa [Char.ofNat_toNat, Char.ofNat_toNat] at h1
        subst hxy
        simp only [charsLe, Nat.lt_irrefl, if_false] at hab hba
        exact congrArg (x :: ·) (ih hab hba)
      · simp [charsLe, Nat.lt_asymm h, h] at hab

theorem keyLe_total (a b : String × String) : keyLe a b = true ∨ keyLe b a = true :=
  charsLe_total _ _

theorem keyLe_trans {a b c : String × String} (hab : keyLe a b = true)
    (hbc : keyLe b c = true) : keyLe a c = true :=
  charsLe_trans hab hbc

/-- Two-way `keyLe` forces equal lowercased keys. -/
theorem keyLe_antisymm {a b : String × String} (hab : keyLe a b = true)
    (hba : keyLe b a = true) : pyLower a.1 = pyLower b.1 := by
  have h := charsLe_antisymm hab hba
  cases hpa : (pyLower a.1) with
  | mk da =>
    cases hpb : (pyLower b.1) with
    | mk db =>
      have : da = db := by
        have h1 : (pyLower a.1).data = (pyLower b.1).data := h
        rw [hpa, hpb] at h1
        exact h1
      rw [this]

/-! ## The stable sort permutes and sorts its input -/

theorem stableInsert_perm (le : α → α → Bool) (a : α) (l : List α) :
    List.Perm (stableInsert le a l) (a :: l) := by
  induction l with
  | nil => exact List.Perm.refl _
  | cons b t ih =>
    simp only [stableInsert]
    split
    · exact List.Perm.refl _
    · exact (List.Perm.cons b ih).trans (List.Perm.swap a b t)

theorem stableSort_perm (le : α → α → Bool) (l : List α) :
    List.Perm (stableSort le l) l := by
  induction l with
  | nil => exact List.Perm.refl _
  | cons a t ih =>
    exact (stableInsert_perm le a (stableSort le t)).trans (List.Perm.cons a ih)

theorem stableInsert_pairwise (le : α → α → Bool)
    (htot : ∀ a b, le a b = true ∨ le b a = true)
    (htrans : ∀ {a b c}, le a b = true → le b c = true → le a c = true)
    (a : α) (l : List α) (hl : l.Pairwise (fun x y => le x y = true)) :
    (stableInsert le a l).Pairwise (fun x y => le x y = true) := by
  induction l with
  | nil => simp [stableInsert]
  | cons b t ih =>
    simp only [stableInsert]
    rcases List.pairwise_cons.mp hl with ⟨hb, ht⟩
    split
    · rename_i hab
      refine List.pairwise_cons.mpr ⟨?_, hl⟩
      intro x hx
      rcases List.mem_cons.mp hx with h | h
      · exact h ▸ hab
      · exact htrans hab (hb x h)
    · rename_i hab
      refine List.pairwise_cons.mpr ⟨?_, ih ht⟩
      intro x hx
      have hba : le b a = true := by
        rcases htot a b with h | h
        · exact absurd h hab
        · exact h
      rcases List.mem_cons.mp ((stableInsert_perm le a t).mem_iff.mp hx) with h | h
      · exact h ▸ hba
      · exact hb x h

theorem stableSort_pairwise (le : α → α → Bool)
    (htot : ∀ a b, le a b = true ∨ le b a = true)
    (htrans : ∀ {a b c}, le a b = true → le b c = true → le a c = true)
    (l : List α) :
    (stableSort le l).Pairwise (fun x y => le x y = true) := by
  induction l with
  | nil => simp [stableSort]
  | cons a t ih => exact stableInsert_pairwise le htot htrans a (stableSort le t) ih

/-! ## Shape of the SHA-256 output -/

theorem compressStep_length {st : List Nat} (h : st.length = 8) (kw : Nat) :
    (compressStep st kw).length = 8 := by
  rcases st with _ | ⟨a, _ | ⟨b, _ | ⟨c, _ | ⟨d, _ | ⟨e, _ | ⟨f, _ | ⟨g, _ | ⟨h8, _ | ⟨i, t⟩⟩⟩⟩⟩⟩⟩⟩⟩ <;>
    simp_all [compressStep]

theorem foldl_compressStep_length (l : List Nat) {st : List Nat} (h : st.length = 8) :
    (l.foldl compressStep st).length = 8 := by
  induction l generalizing st with
  | nil => exact h
  | cons kw t ih => exact ih (compressStep_length h kw)

theorem sha256_compress_length {h : List Nat} (hl : h.length = 8) (b : List Nat) :
    (sha256_compress h b).length = 8 := by
  simp only [sha256_compress, List.length_map, List.length_zip, hl,
    foldl_compressStep_length _ hl, Nat.min_self]

theorem foldl_sha256_compress_length (bs : List (List Nat)) {h : List Nat} (hl : h.length = 8) :
    (bs.foldl sha256_compress h).length = 8 := by
  induction bs generalizing h with
  | nil => exact hl
  | cons b t ih => exact ih (sha256_compress_length hl b)

theorem flatten_wordBytes_length (l : List Nat) :
    ((l.map wordBytes).flatten).length = 4 * l.length := by
  induction l with
  | nil => rfl
  | cons x t ih =>
    simp only [List.map_cons, List.flatten_cons, List.length_append, ih, List.length_cons]
    have h4 : (wordBytes x).length = 4 := rfl
    omega

theorem sha256_length (msg : List Nat) : (sha256 msg).length = 32 := by
  simp only [sha256, flatten_wordBytes_length,
    foldl_sha256_compress_length _ (show sha256_h0.length = 8 from rfl)]

/-! ## The hex rendering produces ASCII hex characters -/

theorem string_mk_length (l : List Char) : (String.mk l).length = l.length := rfl

theorem getD_mem_hexDigits (n : Nat) : hexDigits.getD n '0' ∈ hexDigits := by
  rcases Nat.lt_or_ge n 16 with h | h
  · interval_cases n <;> decide
  · rw [List.getD_eq_default]
    · decide
    · have h16 : hexDigits.length = 16 := rfl
      omega

theorem toUpper_mem_hexDigitsUpper : ∀ c ∈ hexDigits, c.toUpper ∈ hexDigitsUpper := by
  decide

theorem hexdigest_data (bytes : List Nat) :
    (hexdigest bytes).data =
      bytes.flatMap (fun b => [hexDigits.getD (b / 16 % 16) '0', hexDigits.getD (b % 16) '0']) := rfl

theorem hexdigest_length (bytes : List Nat) : (hexdigest bytes).length = 2 * bytes.length := by
  rw [hexdigest, string_mk_length]
  induction bytes with
  | nil => rfl
  | cons b t ih =>
    simp only [List.flatMap_cons, List.length_append, ih, List.length_cons, List.length_nil]
    omega

theorem pyUpper_data (s : String) : (pyUpper s).data = s.data.map Char.toUpper := rfl

theorem pyLower_data (s : String) : (pyLower s).data = s.data.map Char.toLower := rfl

/-- `calculate_check_mac_value`, unfolded into its stage pipeline. -/
theorem calc_eq (self : EcpaySecurityHelper) (P : List (String × String)) :
    self.calculate_check_mac_value P =
      pyUpper (hexdigest (sha256 (utf8Bytes (pyLower (ecpay_url_encode
        (fullStringOf self (delKey P "CheckMacValue"))))))) := rfl

/-- The characters of a computed CheckMacValue, unfolded down to the hex
rendering of the digest. -/
theorem calc_data (self : EcpaySecurityHelper) (P : List (String × String)) :
    (self.calculate_check_mac_value P).data =
      ((hexdigest (sha256 (utf8Bytes (pyLower (ecpay_url_encode
        (fullStringOf self (delKey P "CheckMacValue"))))))).data).map Char.toUpper := by
  rw [calc_eq, pyUpper_data]

/-- Every character of a computed CheckMacValue is an uppercase hex digit. -/
theorem calc_mem_hexUpper (self : EcpaySecurityHelper) (P : List (String × String)) :
    ∀ c ∈ (self.calculate_check_mac_value P).data, c ∈ hexDigitsUpper := by
  intro c hc
  rw [calc_data, hexdigest_data] at hc
  simp only [List.mem_map, List.mem_flatMap] at hc
  obtain ⟨d, ⟨b, _, hd⟩, rfl⟩ := hc
  have hd2 : d = hexDigits.getD (b / 16 % 16) '0' ∨ d = hexDigits.getD (b % 16) '0' := by
    rcases List.mem_cons.mp hd with h | h
    · exact Or.inl h
    · rcases List.mem_cons.mp h with h2 | h2
      · exact Or.inr h2
      · simp at h2
  rcases hd2 with rfl | rfl <;> exact toUpper_mem_hexDigitsUpper _ (getD_mem_hexDigits _)

/-- A computed CheckMacValue is 64 characters long. -/
theorem calc_length (self : EcpaySecurityHelper) (P : List (String × String)) :
    (self.calculate_check_mac_value P).length = 64 := by
  have h1 : ∀ s : String, s.length = s.data.length := fun s => rfl
  rw [h1, calc_data, List.length_map, ← h1, hexdigest_length, sha256_length]

theorem hexUpper_ascii : ∀ c ∈ hexDigitsUpper, c.toNat ≤ 127 := by decide

theorem hexUpper_toLower_ascii : ∀ c ∈ hexDigitsUpper, (Char.toLower c).toNat ≤ 127 := by decide

/-- A computed CheckMacValue is pure ASCII. -/
theorem calc_ascii (self : EcpaySecurityHelper) (P : List (String × String)) :
    (self.calculate_check_mac_value P).data.all (fun c => c.toNat ≤ 127) = true := by
  rw [List.all_eq_true]
  intro c hc
  simpa using hexUpper_ascii c (calc_mem_hexUpper self P c hc)

/-- The lowercasing of a computed CheckMacValue is still pure ASCII. -/
theorem calc_lower_ascii (self : EcpaySecurityHelper) (P : List (String × String)) :
    (pyLower (self.calculate_check_mac_value P)).data.all (fun c => c.toNat ≤ 127) = true := by
  rw [List.all_eq_true]
  intro c hc
  rw [pyLower_data] at hc
  obtain ⟨d, hd, rfl⟩ := List.mem_map.mp hc
  simpa using hexUpper_toLower_ascii d (calc_mem_hexUpper self P d hd)

/-! ## Dictionary and verifier helper lemmas -/

theorem containsKey_append_single (P : List (String × String)) (k v : String) :
    containsKey (P ++ [(k, v)]) k = true := by
  simp [containsKey, List.any_append]

theorem dictGet_append_single {P : List (String × String)} {k v : String}
    (h : containsKey P k = false) : dictGet (P ++ [(k, v)]) k = v := by
  induction P with
  | nil => simp [dictGet, List.find?]
  | cons p t ih =>
    simp only [containsKey, List.any_cons, Bool.or_eq_false_iff] at h
    simpa [dictGet, List.find?, h.1] using ih (by simpa [containsKey] using h.2)

theorem delKey_append_cmv (P : List (String × String)) (m : String) :
    delKey (P ++ [("CheckMacValue", m)]) "CheckMacValue" = delKey P "CheckMacValue" := by
  simp [delKey, List.filter_append]

/-- Appending a signature entry does not change the recomputed signature:
the calculation strips the reserved key first. -/
theorem calc_append_cmv (self : EcpaySecurityHelper) (P : List (String × String)) (m : String) :
    self.calculate_check_mac_value (P ++ [("CheckMacValue", m)]) =
      self.calculate_check_mac_value P := by
  rw [calc_eq, calc_eq, delKey_append_cmv]

theorem compare_digest_eq_self {a : String}
    (h : a.data.all (fun c => c.toNat ≤ 127) = true) :
    compare_digest a a = Except.ok true := by
  simp [compare_digest, h]

theorem compare_digest_ne {a b : String}
    (ha : a.data.all (fun c => c.toNat ≤ 127) = true)
    (hb : b.data.all (fun c => c.toNat ≤ 127) = true)
    (hne : a ≠ b) :
    compare_digest a b = Except.ok false := by
  simp [compare_digest, ha, hb, hne]

theorem verify_eq_of_contains {self : EcpaySecurityHelper} {P : List (String × String)}
    (h : containsKey P "CheckMacValue" = true) :
    self.verify_check_mac_value P =
      compare_digest (dictGet P "CheckMacValue") (self.calculate_check_mac_value P) := by
  simp only [EcpaySecurityHelper.verify_check_mac_value, h, if_true]

theorem verify_eq_of_not_contains {self : EcpaySecurityHelper} {P : List (String × String)}
    (h : containsKey P "CheckMacValue" = false) :
    self.verify_check_mac_value P = Except.ok false := by
  simp only [EcpaySecurityHelper.verify_check_mac_value, h, Bool.false_eq_true, if_false]

/-- Round trip: appending the freshly computed signature verifies. -/
theorem verify_roundtrip_aux (self : EcpaySecurityHelper) {P : List (String × String)}
    (h : containsKey P "CheckMacValue" = false) :
    self.verify_check_mac_value
      (P ++ [("CheckMacValue", self.calculate_check_mac_value P)]) = Except.ok true := by
  rw [verify_eq_of_contains (containsKey_append_single P _ _), dictGet_append_single h,
    calc_append_cmv]
  exact compare_digest_eq_self (calc_ascii self P)

/-- Any attached ASCII value other than the recomputed signature is rejected. -/
theorem verify_mismatch_aux (self : EcpaySecurityHelper) {P : List (String × String)} {m : String}
    (hP : containsKey P "CheckMacValue" = false)
    (hascii : m.data.all (fun c => c.toNat ≤ 127) = true)
    (hne : m ≠ self.calculate_check_mac_value P) :
    self.verify_check_mac_value (P ++ [("CheckMacValue", m)]) = Except.ok false := by
  rw [verify_eq_of_contains (containsKey_append_single P _ _), dictGet_append_single hP,
    calc_append_cmv]
  exact compare_digest_ne hascii (calc_ascii self P) hne

/-! ## Key-order independence machinery -/

instance : IsAntisymm (String × String) keyStrict :=
  ⟨fun _ _ h1 h2 => absurd (keyLe_antisymm h1.1 h2.1) h1.2⟩

theorem stableSort_eq_of_perm_nodupLower {P Q : List (String × String)}
    (hnd : (P.map (fun kv => pyLower kv.1)).Nodup)
    (hpq : List.Perm P Q) :
    stableSort keyLe P = stableSort keyLe Q := by
  have hndQ : (Q.map (fun kv => pyLower kv.1)).Nodup := (hpq.map _).nodup_iff.mp hnd
  have hperm : List.Perm (stableSort keyLe P) (stableSort keyLe Q) :=
    ((stableSort_perm keyLe P).trans hpq).trans (stableSort_perm keyLe Q).symm
  have hsort : ∀ (R : List (String × String)), (R.map (fun kv => pyLower kv.1)).Nodup →
      (stableSort keyLe R).Sorted keyStrict := by
    intro R hR
    refine List.Pairwise.and (stableSort_pairwise keyLe keyLe_total (fun {a b c} => keyLe_trans) R) ?_
    have h1 : ((stableSort keyLe R).map (fun kv => pyLower kv.1)).Nodup :=
      ((stableSort_perm keyLe R).map _).nodup_iff.mpr hR
    exact List.pairwise_map.mp h1
  exact List.eq_of_perm_of_sorted hperm (hsort P hnd) (hsort Q hndQ)

theorem fullStringOf_congr {self : EcpaySecurityHelper} {l1 l2 : List (String × String)}
    (h : stableSort keyLe l1 = stableSort keyLe l2) :
    fullStringOf self l1 = fullStringOf self l2 := by
  unfold fullStringOf
  rw [h]

/-- The signature is invariant under reordering of the parameter entries,
provided no two distinct entries share a case-insensitively equal key. -/
theorem calc_perm_invariant (self : EcpaySecurityHelper) {P Q : List (String × String)}
    (hnd : (P.map (fun kv => pyLower kv.1)).Nodup)
    (hpq : List.Perm P Q) :
    self.calculate_check_mac_value P = self.calculate_check_mac_value Q := by
  rw [calc_eq, calc_eq]
  have hd : List.Perm (delKey P "CheckMacValue") (delKey Q "CheckMacValue") := hpq.filter _
  have hnd2 : ((delKey P "CheckMacValue").map (fun kv => pyLower kv.1)).Nodup :=
    List.Nodup.sublist (List.Sublist.map _ (List.filter_sublist P)) hnd
  rw [fullStringOf_congr (stableSort_eq_of_perm_nodupLower hnd2 hd)]

/-! ## Percent-encoder facts -/

theorem isSafeByte_false_of_ge128 {b : Nat} (h : 128 ≤ b) : isSafeByte b = false := by
  simp only [isSafeByte, Bool.or_eq_false_iff, Bool.and_eq_false_iff,
    decide_eq_false_iff_not, beq_eq_false_iff_ne, ne_eq, Nat.not_le]
  omega

theorem quoteByte_unsafe {b : Nat} (h32 : b ≠ 32) (hsafe : isSafeByte b = false) :
    quoteByte b =
      ['%', hexDigitsUpper.getD (b / 16 % 16) '0', hexDigitsUpper.getD (b % 16) '0'] := by
  have h1 : (b == 32) = false := beq_eq_false_iff_ne.mpr h32
  simp [quoteByte, h1, hsafe]

theorem charUtf8_ge128 {n : Nat} (h : 128 ≤ n) : ∀ b ∈ charUtf8 n, 128 ≤ b := by
  intro b hb
  have hn : ¬ n < 0x80 := by omega
  simp only [charUtf8, hn, if_false] at hb
  split at hb
  · simp only [List.mem_cons, List.not_mem_nil, or_false] at hb
    rcases hb with rfl | rfl <;> exact Nat.le_trans (by omega) (Nat.le_add_right _ _)
  · split at hb
    · simp only [List.mem_cons, List.not_mem_nil, or_false] at hb
      rcases hb with rfl | rfl | rfl <;> exact Nat.le_trans (by omega) (Nat.le_add_right _ _)
    · simp only [List.mem_cons, List.not_mem_nil, or_false] at hb
      rcases hb with rfl | rfl | rfl | rfl <;> exact Nat.le_trans (by omega) (Nat.le_add_right _ _)

theorem flatMap_quoteByte_ge128 {bs : List Nat} (h : ∀ b ∈ bs, 128 ≤ b) :
    bs.flatMap quoteByte =
      bs.flatMap (fun b =>
        ['%', hexDigitsUpper.getD (b / 16 % 16) '0', hexDigitsUpper.getD (b % 16) '0']) := by
  induction bs with
  | nil => rfl
  | cons b t ih =>
    have hb := h b (List.mem_cons_self b t)
    rw [List.flatMap_cons, List.flatMap_cons,
      quoteByte_unsafe (by omega) (isSafeByte_false_of_ge128 hb),
      ih (fun x hx => h x (List.mem_cons_of_mem b hx))]

theorem flatMap_triple_length (bs : List Nat) :
    (bs.flatMap (fun b =>
      ['%', hexDigitsUpper.getD (b / 16 % 16) '0', hexDigitsUpper.getD (b % 16) '0'])).length =
      3 * bs.length := by
  induction bs with
  | nil => rfl
  | cons b t ih =>
    simp only [List.flatMap_cons, List.length_append, ih, List.length_cons, List.length_nil]
    omega

theorem charUtf8_length_ge2 {n : Nat} (h : 128 ≤ n) : 2 ≤ (charUtf8 n).length := by
  have hn : ¬ n < 0x80 := by omega
  simp only [charUtf8, hn, if_false]
  split
  · simp
  · split <;> simp

theorem utf8Bytes_single (c : Char) : utf8Bytes (String.mk [c]) = charUtf8 c.toNat := by
  simp [utf8Bytes]

/-! ## Heap-trace lemmas for the frame claim -/

theorem heapWrite_self (h : DictHeap) (i : Nat) (d : List (String × String)) :
    heapWrite h i d i = d := by
  simp [heapWrite]

theorem heapWrite_ne {i j : Nat} (hij : j ≠ i) (h : DictHeap) (d : List (String × String)) :
    heapWrite h i d j = h j := by
  simp [heapWrite, hij]

theorem delKey_of_not_contains {d : List (String × String)} {k : String}
    (h : containsKey d k = false) : delKey d k = d := by
  rw [delKey, List.filter_eq_self]
  intro kv hkv
  simp only [containsKey, List.any_eq_false] at h
  simpa [bne] using h kv hkv

theorem calculate_trace_result (self : EcpaySecurityHelper) (h : DictHeap) (p cp : Nat) :
    (calculate_trace self h p cp).2 = self.calculate_check_mac_value (h p) := by
  rw [calc_eq]
  simp only [calculate_trace, heapWrite_self]
  rw [apply_ite (fun f : DictHeap => f cp), heapWrite_self, heapWrite_self]
  by_cases hc : containsKey (h p) "CheckMacValue" = true
  · rw [if_pos hc]
  · rw [if_neg (by simpa using hc), delKey_of_not_contains (by simpa using hc)]

theorem calculate_trace_frame (self : EcpaySecurityHelper) (h : DictHeap) (p cp j : Nat)
    (hj : j ≠ cp) : (calculate_trace self h p cp).1 j = h j := by
  simp only [calculate_trace]
  rw [apply_ite (fun f : DictHeap => f j)]
  simp only [heapWrite_ne hj, ite_self]

theorem verify_trace_result (self : EcpaySecurityHelper) (h : DictHeap)
    (received cp1 cp2 : Nat) :
    (verify_trace self h received cp1 cp2).2 = self.verify_check_mac_value (h received) := by
  simp only [verify_trace]
  by_cases hc : containsKey (h received) "CheckMacValue" = true
  · rw [if_pos hc, verify_eq_of_contains hc]
    show compare_digest _ (calculate_trace self (heapWrite h cp1 (h received)) cp1 cp2).2 = _
    rw [calculate_trace_result, heapWrite_self]
  · rw [if_neg (by simpa using hc), verify_eq_of_not_contains (by simpa using hc)]

theorem verify_trace_frame (self : EcpaySecurityHelper) (h : DictHeap)
    (received cp1 cp2 : Nat) (h1 : received ≠ cp1) (h2 : received ≠ cp2) :
    (verify_trace self h received cp1 cp2).1 received = h received := by
  simp only [verify_trace]
  by_cases hc : containsKey (h received) "CheckMacValue" = true
  · rw [if_pos hc]
    show (calculate_trace self (heapWrite h cp1 (h received)) cp1 cp2).1 received = _
    rw [calculate_trace_frame _ _ _ _ _ h2, heapWrite_ne h1]
  · rw [if_neg (by simpa using hc)]

/-! ## The specification claims -/

/-- C1: for every parameter mapping and non-empty secrets, the code's
`calculate_check_mac_value` equals the reference definition assembled from
the spec text: strip the reserved key, sort case-insensitively, join
`Key=Value` with `&`, wrap `HashKey=…&…&HashIV=…`, percent-encode,
lowercase the whole encoded string, SHA-256 its UTF-8 bytes, uppercase hex. -/
theorem claim_C1 (hash_key hash_iv : String) (P : List (String × String))
    (hk : hash_key ≠ "") (hiv : hash_iv ≠ "") :
    (EcpaySecurityHelper.mk hash_key hash_iv).calculate_check_mac_value P =
      spec_sign hash_key hash_iv P := rfl

theorem claim_C1_witness :
    ("5294y06JbISpM5x9" : String) ≠ "" ∧ ("v77hoKGq4kWxNNIS" : String) ≠ "" ∧
    (EcpaySecurityHelper.mk "5294y06JbISpM5x9" "v77hoKGq4kWxNNIS").calculate_check_mac_value
        [("MerchantID", "2000132")] =
      spec_sign "5294y06JbISpM5x9" "v77hoKGq4kWxNNIS" [("MerchantID", "2000132")] :=
  ⟨by decide, by decide, claim_C1 _ _ _ (by decide) (by decide)⟩

/-- C2: verification round trip — for every mapping without the reserved key,
attaching the freshly computed signature makes verification succeed. -/
theorem claim_C2 (self : EcpaySecurityHelper) (P : List (String × String))
    (h : containsKey P "CheckMacValue" = false) :
    self.verify_check_mac_value
      (P ++ [("CheckMacValue", self.calculate_check_mac_value P)]) = Except.ok true :=
  verify_roundtrip_aux self h

theorem claim_C2_witness :
    containsKey [("MerchantID", "2000132")] "CheckMacValue" = false ∧
    (EcpaySecurityHelper.mk "k" "i").verify_check_mac_value
      ([("MerchantID", "2000132")] ++ [("CheckMacValue",
        (EcpaySecurityHelper.mk "k" "i").calculate_check_mac_value
          [("MerchantID", "2000132")])]) = Except.ok true :=
  ⟨by decide, claim_C2 _ _ (by decide)⟩

/-- C3: the claim says `verify_check_mac_value` never raises on untrusted
input, but CPython's `hmac.compare_digest` raises `TypeError` on a non-ASCII
`str`; a callback whose `CheckMacValue` value contains a non-ASCII character
therefore crashes the receiver instead of returning `False`. -/
theorem claim_C3 :
    (EcpaySecurityHelper.mk "k" "i").verify_check_mac_value [("CheckMacValue", "é")] =
      Except.error
        "TypeError: comparing strings with non-ASCII characters is not supported" := rfl

/-- C4 counterexample: two dicts holding the same entries in different orders
(keys "a" and "A" collide case-insensitively, and the stable sort keeps
input order on ties) produce different signatures. -/
theorem claim_C4_counterexample :
    List.Perm [(("a" : String), ("1" : String)), ("A", "2")] [("A", "2"), ("a", "1")] ∧
    (EcpaySecurityHelper.mk "k" "i").calculate_check_mac_value [("a", "1"), ("A", "2")] ≠
      (EcpaySecurityHelper.mk "k" "i").calculate_check_mac_value [("A", "2"), ("a", "1")] :=
  ⟨List.Perm.swap ("A", "2") ("a", "1") [], by decide⟩

/-- C4 (amended): the signature is invariant under reordering of the entries
provided no two distinct entries have case-insensitively equal keys. -/
theorem claim_C4 (self : EcpaySecurityHelper) (P Q : List (String × String))
    (hnd : (P.map (fun kv => pyLower kv.1)).Nodup) (hpq : List.Perm P Q) :
    self.calculate_check_mac_value P = self.calculate_check_mac_value Q :=
  calc_perm_invariant self hnd hpq

theorem claim_C4_witness :
    ([(("a" : String), ("1" : String)), ("b", "2")].map (fun kv => pyLower kv.1)).Nodup ∧
    List.Perm [(("a" : String), ("1" : String)), ("b", "2")] [("b", "2"), ("a", "1")] ∧
    (EcpaySecurityHelper.mk "k" "i").calculate_check_mac_value [("a", "1"), ("b", "2")] =
      (EcpaySecurityHelper.mk "k" "i").calculate_check_mac_value [("b", "2"), ("a", "1")] :=
  ⟨by decide, List.Perm.swap ("b", "2") ("a", "1") [],
    claim_C4 _ _ _ (by decide) (List.Perm.swap ("b", "2") ("a", "1") [])⟩

/-- C5: the percent-encoder maps space to `+`, passes the safe characters
`- _ . ~ ! * ( )` and ASCII alphanumerics through unchanged, turns `=` (and
every other non-space byte outside the safe set) into a `%XX` escape, and
works on UTF-8 bytes, producing one `%XX` triplet per byte of a multi-byte
character. -/
theorem claim_C5 :
    ecpay_url_encode " " = "+" ∧
    ecpay_url_encode "-_.~!*()" = "-_.~!*()" ∧
    (∀ n : Nat, n < 128 → (Char.ofNat n).isAlphanum = true →
      ecpay_url_encode (String.mk [Char.ofNat n]) = String.mk [Char.ofNat n]) ∧
    (ecpay_url_encode "=" = "%3D" ∧
      (∀ n : Nat, n < 128 → n ≠ 32 → isSafeByte n = false →
        ecpay_url_encode (String.mk [Char.ofNat n]) =
          String.mk ['%', hexDigitsUpper.getD (n / 16 % 16) '0',
            hexDigitsUpper.getD (n % 16) '0'])) ∧
    (∀ c : Char, 128 ≤ c.toNat →
      ecpay_url_encode (String.mk [c]) =
        String.mk ((charUtf8 c.toNat).flatMap (fun b =>
          ['%', hexDigitsUpper.getD (b / 16 % 16) '0',
            hexDigitsUpper.getD (b % 16) '0'])) ∧
      2 ≤ (charUtf8 c.toNat).length) := by
  refine ⟨by decide, by decide, by decide, ⟨by decide, by decide⟩, ?_⟩
  intro c hc
  constructor
  · simp only [ecpay_url_encode, utf8Bytes_single,
      flatMap_quoteByte_ge128 (charUtf8_ge128 hc)]
  · exact charUtf8_length_ge2 hc

theorem claim_C5_witness :
    128 ≤ ('中' : Char).toNat ∧
    ecpay_url_encode (String.mk ['中']) =
      String.mk ((charUtf8 ('中' : Char).toNat).flatMap (fun b =>
        ['%', hexDigitsUpper.getD (b / 16 % 16) '0',
          hexDigitsUpper.getD (b % 16) '0'])) :=
  ⟨by decide, (claim_C5.2.2.2.2 '中' (by decide)).1⟩

/-- C6: the signature comparison does not normalize case — attaching the
lowercased form of the correct (uppercase) signature is rejected whenever
lowercasing actually changes the digest string, i.e. unless the digest
happens to consist of decimal digits only. -/
theorem claim_C6 (self : EcpaySecurityHelper) (P : List (String × String))
    (hP : containsKey P "CheckMacValue" = false)
    (hcase : pyLower (self.calculate_check_mac_value P) ≠ self.calculate_check_mac_value P) :
    self.verify_check_mac_value
      (P ++ [("CheckMacValue", pyLower (self.calculate_check_mac_value P))]) =
      Except.ok false :=
  verify_mismatch_aux self hP (calc_lower_ascii self P) hcase

theorem claim_C6_witness :
    containsKey ([] : List (String × String)) "CheckMacValue" = false ∧
    pyLower ((EcpaySecurityHelper.mk "k" "i").calculate_check_mac_value []) ≠
      (EcpaySecurityHelper.mk "k" "i").calculate_check_mac_value [] ∧
    (EcpaySecurityHelper.mk "k" "i").verify_check_mac_value
      ([] ++ [("CheckMacValue",
        pyLower ((EcpaySecurityHelper.mk "k" "i").calculate_check_mac_value []))]) =
      Except.ok false :=
  ⟨rfl, by decide, claim_C6 _ _ rfl (by decide)⟩

/-- C7: construction fails exactly when a secret is empty, and with both
secrets non-empty it succeeds and stores them unchanged. -/
theorem claim_C7 (hash_key hash_iv : String) :
    ((∃ e, EcpaySecurityHelper.make hash_key hash_iv = Except.error e) ↔
      (hash_key = "" ∨ hash_iv = "")) ∧
    (hash_key ≠ "" → hash_iv ≠ "" →
      EcpaySecurityHelper.make hash_key hash_iv = Except.ok ⟨hash_key, hash_iv⟩) := by
  constructor
  · constructor
    · rintro ⟨e, he⟩
      by_contra hcon
      simp [EcpaySecurityHelper.make, if_neg hcon] at he
    · intro hcond
      refine ⟨"ECPay HashKey and HashIV must be provided.", ?_⟩
      simp only [EcpaySecurityHelper.make, if_pos hcond]
  · intro h1 h2
    have hcon : ¬ (hash_key = "" ∨ hash_iv = "") := by
      rintro (h | h)
      · exact h1 h
      · exact h2 h
    simp only [EcpaySecurityHelper.make, if_neg hcon]

theorem claim_C7_witness :
    ("k" : String) ≠ "" ∧ ("i" : String) ≠ "" ∧
    EcpaySecurityHelper.make "k" "i" = Except.ok ⟨"k", "i"⟩ :=
  ⟨by decide, by decide, (claim_C7 "k" "i").2 (by decide) (by decide)⟩

/-- C8: with a valid secret pair, the computed signature is a string of
exactly 64 characters, each an uppercase hexadecimal digit, and equal
inputs give the identical string. -/
theorem claim_C8 (self : EcpaySecurityHelper) (P Q : List (String × String))
    (hk : self.hash_key ≠ "") (hiv : self.hash_iv ≠ "") :
    (self.calculate_check_mac_value P).length = 64 ∧
    (∀ c ∈ (self.calculate_check_mac_value P).data, c ∈ hexDigitsUpper) ∧
    (P = Q → self.calculate_check_mac_value P = self.calculate_check_mac_value Q) :=
  ⟨calc_length self P, calc_mem_hexUpper self P, fun h => by rw [h]⟩

theorem claim_C8_witness :
    (EcpaySecurityHelper.mk "k" "i").hash_key ≠ "" ∧
    (EcpaySecurityHelper.mk "k" "i").hash_iv ≠ "" ∧
    ((EcpaySecurityHelper.mk "k" "i").calculate_check_mac_value []).length = 64 :=
  ⟨by decide, by decide, (claim_C8 _ [] [] (by decide) (by decide)).1⟩

/-- C9: executing the method bodies against an explicit heap of dict
objects, the caller's dict is unchanged after either call (the `del` acts
only on the fresh copy), and the returned values coincide with the pure
functions of the caller's dict value. -/
theorem claim_C9 (self : EcpaySecurityHelper) (h : DictHeap) :
    (∀ params cp : Nat, cp ≠ params →
      (calculate_trace self h params cp).1 params = h params ∧
      (calculate_trace self h params cp).2 = self.calculate_check_mac_value (h params)) ∧
    (∀ received cp1 cp2 : Nat, cp1 ≠ received → cp2 ≠ received →
      (verify_trace self h received cp1 cp2).1 received = h received ∧
      (verify_trace self h received cp1 cp2).2 = self.verify_check_mac_value (h received)) := by
  constructor
  · intro params cp hne
    exact ⟨calculate_trace_frame self h params cp params (Ne.symm hne),
      calculate_trace_result self h params cp⟩
  · intro received cp1 cp2 h1 h2
    exact ⟨verify_trace_frame self h received cp1 cp2 (Ne.symm h1) (Ne.symm h2),
      verify_trace_result self h received cp1 cp2⟩

theorem claim_C9_witness :
    (1 : Nat) ≠ 0 ∧
    (calculate_trace (EcpaySecurityHelper.mk "k" "i") (fun _ => ([] : List (String × String))) 0 1).1 0 = [] ∧
    (calculate_trace (EcpaySecurityHelper.mk "k" "i") (fun _ => ([] : List (String × String))) 0 1).2 =
      (EcpaySecurityHelper.mk "k" "i").calculate_check_mac_value [] :=
  ⟨by decide, ((claim_C9 _ _).1 0 1 (by decide)).1, ((claim_C9 _ _).1 0 1 (by decide)).2⟩

/-- C10: signing is not injective even assuming a collision-free hash —
`{"A": "1&B=2"}` and `{"A": "1", "B": "2"}` canonicalize to the same string,
so for any secrets they share a signature, and a signature computed for the
first is accepted when attached to the second. -/
theorem claim_C10 (hash_key hash_iv : String) :
    ([(("A" : String), ("1&B=2" : String))] : List (String × String)) ≠
      [("A", "1"), ("B", "2")] ∧
    (EcpaySecurityHelper.mk hash_key hash_iv).calculate_check_mac_value [("A", "1&B=2")] =
      (EcpaySecurityHelper.mk hash_key hash_iv).calculate_check_mac_value
        [("A", "1"), ("B", "2")] ∧
    (EcpaySecurityHelper.mk hash_key hash_iv).verify_check_mac_value
      ([("A", "1"), ("B", "2")] ++ [("CheckMacValue",
        (EcpaySecurityHelper.mk hash_key hash_iv).calculate_check_mac_value
          [("A", "1&B=2")])]) = Except.ok true := by
  have hcalc :
      (EcpaySecurityHelper.mk hash_key hash_iv).calculate_check_mac_value [("A", "1&B=2")] =
        (EcpaySecurityHelper.mk hash_key hash_iv).calculate_check_mac_value
          [("A", "1"), ("B", "2")] := by
    rw [calc_eq, calc_eq]
    rfl
  refine ⟨by decide, hcalc, ?_⟩
  rw [hcalc]
  exact verify_roundtrip_aux _ (by decide)
